import Mathlib

/-!
Shallow embedding of the staked-resolution contracts of this repository:

* `PredictionMarket` (src/smart-contracts/smart_contract_1740380441006.rs):
  `deposit`, `withdraw`, `resolve`, `claim`, `get_stake`, `get_outcome_pool`.
* `PredictiveMarketContract` (src/smart-contracts/smart_contract_1740366471937.rs):
  `vote`, `distribute_rewards`.
* `DecentralizedAuction` (src/smart-contracts/smart_contract_1740272477731.rs):
  `claim_item`.
* `VotingContract` (src/smart-contracts/smart_contract_1740330087233.rs):
  `end_voting`.

Addresses, symbols and byte blobs are modelled as `Nat`; `i128` values as `Int`
with the `checked_add`/`checked_sub` range checks made explicit; storage maps as
association lists in insertion order; emitted token transfers as an append-only
list recorded in the state, standing for the external transfer collaborator.
-/

set_option autoImplicit false

/-- Result of one contract invocation. `ok`/`err` are the two sides of a Rust
`Result` return; `panicked` is a `panic_with_error`-style trap carrying the
typed error code it was raised with. -/
inductive Outcome (ε α : Type) where
  | ok : α → Outcome ε α
  | err : ε → Outcome ε α
  | panicked : ε → Outcome ε α
deriving DecidableEq, Repr

/-- Insert-or-update on an association list, keeping insertion order. -/
def mapSet {κ α : Type} [DecidableEq κ] : List (κ × α) → κ → α → List (κ × α)
  | [], k, v => [(k, v)]
  | (k0, v0) :: t, k, v =>
    if k0 = k then (k, v) :: t else (k0, v0) :: mapSet t k v

/-- Lookup on an association list (first matching key). -/
def mapGet {κ α : Type} [DecidableEq κ] : List (κ × α) → κ → Option α
  | [], _ => none
  | (k0, v0) :: t, k => if k0 = k then some v0 else mapGet t k

/-- Remove every entry stored under a key. -/
def mapRemove {κ α : Type} [DecidableEq κ] : List (κ × α) → κ → List (κ × α)
  | [], _ => []
  | (k0, v0) :: t, k =>
    if k0 = k then mapRemove t k else (k0, v0) :: mapRemove t k

theorem mapGet_mapSet_self {κ α : Type} [DecidableEq κ] (m : List (κ × α)) (k : κ) (v : α) :
    mapGet (mapSet m k v) k = some v := by
  induction m with
  | nil => simp [mapSet, mapGet]
  | cons p t ih =>
    by_cases h : p.1 = k
    · simp [mapSet, mapGet, h]
    · simp [mapSet, mapGet, h, ih]

theorem mapGet_mapRemove_self {κ α : Type} [DecidableEq κ] (m : List (κ × α)) (k : κ) :
    mapGet (mapRemove m k) k = none := by
  induction m with
  | nil => simp [mapRemove, mapGet]
  | cons p t ih =>
    by_cases h : p.1 = k
    · simp [mapRemove, h, ih]
    · simp [mapRemove, mapGet, h, ih]

/-- Smallest `i128` value. -/
def i128Min : Int := -(2 ^ 127)

/-- Largest `i128` value. -/
def i128Max : Int := 2 ^ 127 - 1

/-- Rust `i128::checked_add`. -/
def checked_add (a b : Int) : Option Int :=
  if i128Min ≤ a + b ∧ a + b ≤ i128Max then some (a + b) else none

/-- Rust `i128::checked_sub`. -/
def checked_sub (a b : Int) : Option Int :=
  if i128Min ≤ a - b ∧ a - b ≤ i128Max then some (a - b) else none

/-! ## PredictionMarket (smart_contract_1740380441006.rs) -/

/-- Error enum of `PredictionMarket` (src/errors.rs of that contract). -/
inductive PMError where
  | Unauthorized
  | MarketNotMature
  | InvalidOutcome
  | MarketAlreadyResolved
  | MarketNotResolved
  | NotWinningOutcome
  | NoStake
  | InsufficientStake
  | Overflow
  | Underflow
  | NoOutcomes
  | InsufficientLiquidity
  | InsufficientPoolLiquidity
deriving DecidableEq, Repr

/-- Storage of `PredictionMarket`: the instance/persistent entries written by
`init` and mutated by the operations, plus the transfers the contract emits
(the `claim` "TRANSFER" output), recorded for observation. -/
structure PMState where
  admin : Nat
  event_name : Nat
  outcomes : List Nat
  oracle : Nat
  resolution_timestamp : Nat
  resolved : Bool
  resolved_outcome : Nat
  stakes : List ((Nat × Nat) × Int)
  pools : List (Nat × Int)
  total_liquidity : Int
  transfers : List (Nat × Int)
deriving DecidableEq, Repr

/-- `PredictionMarket::get_stake`: stored stake of `(account, outcome)`, 0 if absent. -/
def get_stake (s : PMState) (account outcome : Nat) : Int :=
  (mapGet s.stakes (account, outcome)).getD 0

/-- `PredictionMarket::get_outcome_pool`: pool total of an outcome, 0 if absent. -/
def get_outcome_pool (s : PMState) (outcome : Nat) : Int :=
  (mapGet s.pools outcome).getD 0

/-- `PredictionMarket::deposit`. Checks only that the outcome is listed, then
adds `amount` to the stored stake and to the outcome pool with checked
arithmetic. There is no zero-amount, state or deadline check in the source. -/
def deposit (s : PMState) (from_ outcome : Nat) (amount : Int) :
    Outcome PMError Unit × PMState :=
  if outcome ∉ s.outcomes then (.err .InvalidOutcome, s)
  else
    match checked_add (get_stake s from_ outcome) amount with
    | none => (.err .Overflow, s)
    | some stake =>
      let s1 := { s with stakes := mapSet s.stakes (from_, outcome) stake }
      match checked_add (get_outcome_pool s1 outcome) amount with
      | none => (.err .Overflow, s1)
      | some pool => (.ok (), { s1 with pools := mapSet s1.pools outcome pool })

/-- `PredictionMarket::withdraw`. Not gated on `resolved`: only validates the
outcome and that the stored stake covers `amount`, then decreases stake and
pool, removing the stake record when it reaches zero. -/
def withdraw (s : PMState) (to_ outcome : Nat) (amount : Int) :
    Outcome PMError Unit × PMState :=
  if outcome ∉ s.outcomes then (.err .InvalidOutcome, s)
  else if get_stake s to_ outcome < amount then (.err .InsufficientStake, s)
  else
    match checked_sub (get_stake s to_ outcome) amount with
    | none => (.err .Underflow, s)
    | some stake =>
      let s1 :=
        if stake = 0 then { s with stakes := mapRemove s.stakes (to_, outcome) }
        else { s with stakes := mapSet s.stakes (to_, outcome) stake }
      match checked_sub (get_outcome_pool s1 outcome) amount with
      | none => (.err .Underflow, s1)
      | some pool => (.ok (), { s1 with pools := mapSet s1.pools outcome pool })

/-- `PredictionMarket::resolve` with the ledger timestamp passed as `now`.
Checks, in source order: caller is admin, timestamp reached, outcome listed,
not already resolved; then records the winning outcome. -/
def resolve (s : PMState) (by_ resolved_outcome : Nat) (now : Nat) :
    Outcome PMError Unit × PMState :=
  if by_ ≠ s.admin then (.err .Unauthorized, s)
  else if now < s.resolution_timestamp then (.err .MarketNotMature, s)
  else if resolved_outcome ∉ s.outcomes then (.err .InvalidOutcome, s)
  else if s.resolved then (.err .MarketAlreadyResolved, s)
  else (.ok (), { s with resolved_outcome := resolved_outcome, resolved := true })

/-- `PredictionMarket::claim`. On success removes the stake record and emits a
transfer of `stake * total_liquidity / pool` (Rust `i128` division truncates,
hence `Int.tdiv`; in states reachable from `init` the pool of an outcome with a
positive stake is positive, so the division is never by zero). -/
def claim (s : PMState) (to_ outcome : Nat) :
    Outcome PMError Unit × PMState :=
  if ¬ s.resolved then (.err .MarketNotResolved, s)
  else if outcome ≠ s.resolved_outcome then (.err .NotWinningOutcome, s)
  else if get_stake s to_ outcome = 0 then (.err .NoStake, s)
  else
    let stake := get_stake s to_ outcome
    let s1 := { s with stakes := mapRemove s.stakes (to_, outcome) }
    let winnings := Int.tdiv (stake * s1.total_liquidity) (get_outcome_pool s1 outcome)
    (.ok (), { s1 with transfers := s1.transfers ++ [(to_, winnings)] })

/-! ## PredictiveMarketContract (smart_contract_1740366471937.rs) -/

/-- Error enum of `PredictiveMarketContract`. -/
inductive PollError where
  | Unauthorized
  | InsufficientBalance
  | ZeroAmount
  | InvalidInput
  | Overflow
  | Underflow
  | PollNotFound
  | PollNotActive
  | AlreadyVoted
  | InvalidOption
  | DeadlinePassed
deriving DecidableEq, Repr

/-- The `Vote` struct: one user's staked vote in a poll. -/
structure Vote where
  option : Nat
  amount : Int
deriving DecidableEq, Repr

/-- The `Poll` struct (question/options byte blobs kept as opaque numbers). -/
structure Poll where
  question : Nat
  options : Nat
  oracle : Nat
  deadline : Nat
  resolved : Bool
  winning_option : Nat
deriving DecidableEq, Repr

/-- Storage of `PredictiveMarketContract`: instance entries, the `Poll{id}` and
`Vote{id,user}` persistent entries, and the token transfers performed through
the token contract, recorded as `(from, to, amount)` triples. -/
structure PMCState where
  admin : Nat
  token : Nat
  poll_count : Nat
  polls : List (Nat × Poll)
  votes : List ((Nat × Nat) × Vote)
  contract_address : Nat
  transfers : List (Nat × Nat × Int)
deriving DecidableEq, Repr

/-- `PredictiveMarketContract::vote` with the ledger timestamp passed as `now`.
Every failure in the source is raised with `panic_with_error`, modelled as
`Outcome.panicked`; all checks precede the token transfer and the vote write. -/
def vote (s : PMCState) (poll_id voter option : Nat) (amount : Int) (now : Nat) :
    Outcome PollError Unit × PMCState :=
  if amount ≤ 0 then (.panicked .ZeroAmount, s)
  else
    match mapGet s.polls poll_id with
    | none => (.panicked .PollNotFound, s)
    | some poll =>
      if poll.resolved then (.panicked .PollNotActive, s)
      else if poll.deadline < now then (.panicked .DeadlinePassed, s)
      else if (mapGet s.votes (poll_id, voter)).isSome then (.panicked .AlreadyVoted, s)
      else
        let s1 := { s with transfers := s.transfers ++ [(voter, s.contract_address, amount)] }
        (.ok (), { s1 with votes := mapSet s1.votes (poll_id, voter) ⟨option, amount⟩ })

/-- The stored votes belonging to one poll, in storage order (the loop bodies of
`distribute_rewards` iterate exactly these entries). -/
def poll_votes (s : PMCState) (poll_id : Nat) : List ((Nat × Nat) × Vote) :=
  s.votes.filter (fun kv => kv.1.1 == poll_id)

/-- Two's-complement wrap of an unbounded integer into the `i128` range: the
value computed by the source's unchecked `i128` arithmetic (`+=`, `*`) in
release builds, which `distribute_rewards` uses without `checked_` guards (the
source itself carries a `Potential overflow` comment there). -/
def wrap128 (a : Int) : Int := (a + 2 ^ 127) % 2 ^ 128 - 2 ^ 127

/-- The `total_stake` accumulator of `distribute_rewards`: unchecked `i128`
sum of all stake amounts of the poll, wrapping on overflow. -/
def total_stake_of (s : PMCState) (poll_id : Nat) : Int :=
  (poll_votes s poll_id).foldl (fun acc kv => wrap128 (acc + kv.2.amount)) 0

/-- The `winning_stake` accumulator of `distribute_rewards`: unchecked `i128`
sum of the stake amounts placed on `winning_option`, wrapping on overflow. -/
def winning_stake_of (s : PMCState) (poll_id winning_option : Nat) : Int :=
  (poll_votes s poll_id).foldl
    (fun acc kv => if kv.2.option = winning_option then wrap128 (acc + kv.2.amount) else acc) 0

/-- The mathematical (non-wrapping) sum of the poll's stake amounts. Not an
operation of the source: it is used to state the no-overflow hypotheses under
which the wrapped accumulator `total_stake_of` agrees with it. -/
def exact_total_stake (s : PMCState) (poll_id : Nat) : Int :=
  (poll_votes s poll_id).foldl (fun acc kv => acc + kv.2.amount) 0

/-- The mathematical (non-wrapping) sum of the poll's stakes on
`winning_option`; the no-overflow counterpart of `winning_stake_of`. -/
def exact_winning_stake (s : PMCState) (poll_id winning_option : Nat) : Int :=
  (poll_votes s poll_id).foldl
    (fun acc kv => if kv.2.option = winning_option then acc + kv.2.amount else acc) 0

/-- `PredictiveMarketContract::distribute_rewards`. If nobody staked the
winning option it refunds every staker their exact amount; otherwise each
winning staker receives `amount * total_stake / winning_stake` — unchecked
`i128` multiplication (wrapping, `wrap128`) followed by truncating division —
with transfers skipped when the computed reward is not positive. In both
branches every vote record of the poll is removed. -/
def distribute_rewards (s : PMCState) (poll_id winning_option : Nat) : PMCState :=
  let vs := poll_votes s poll_id
  let total_stake := total_stake_of s poll_id
  let winning_stake := winning_stake_of s poll_id winning_option
  if winning_stake = 0 then
    { s with
      transfers := s.transfers ++ vs.map (fun kv => (s.contract_address, kv.1.2, kv.2.amount)),
      votes := s.votes.filter (fun kv => !(kv.1.1 == poll_id)) }
  else
    { s with
      transfers := s.transfers ++ vs.filterMap (fun kv =>
        if kv.2.option = winning_option then
          let reward := Int.tdiv (wrap128 (kv.2.amount * total_stake)) winning_stake
          if 0 < reward then some (s.contract_address, kv.1.2, reward) else none
        else none),
      votes := s.votes.filter (fun kv => !(kv.1.1 == poll_id)) }

/-! ## DecentralizedAuction (smart_contract_1740272477731.rs) -/

/-- Error enum of `DecentralizedAuction`. -/
inductive AuctionError where
  | PayableError
  | EmptyItemDescription
  | InvalidDuration
  | BidTooLow
  | AuctionEnded
  | NotOwner
  | SettlementAlreadyDone
deriving DecidableEq, Repr

/-- Storage of `DecentralizedAuction` (item description omitted; transfers
recorded as `(recipient, amount)`). -/
structure AuctionState where
  owner : Nat
  end_timestamp : Nat
  highest_bid : Int
  highest_bidder : Nat
  bids : List (Nat × Int)
  auction_finished : Bool
  settlement_done : Bool
  transfers : List (Nat × Int)
deriving DecidableEq, Repr

/-- `DecentralizedAuction::claim_item`. The winning bidder settles once: the
`settlement_done` flag is set together with the transfer to the owner, and any
later call hits the `SettlementAlreadyDone` branch. -/
def claim_item (s : AuctionState) (caller : Nat) :
    Outcome AuctionError Unit × AuctionState :=
  if ¬ s.auction_finished then (.err .AuctionEnded, s)
  else if caller ≠ s.highest_bidder then (.err .NotOwner, s)
  else if ¬ s.settlement_done then
    (.ok (), { s with transfers := s.transfers ++ [(s.owner, s.highest_bid)],
                      settlement_done := true })
  else (.err .SettlementAlreadyDone, s)

/-! ## VotingContract (smart_contract_1740330087233.rs) -/

/-- Error enum of `VotingContract`. -/
inductive VCError where
  | AlreadyInitialized
  | InvalidOptions
  | VotingAlreadyInProgress
  | VotingNotStarted
  | VotingEnded
  | AlreadyVoted
  | InvalidOption
  | NoVotesCast
  | InsufficientBalance
deriving DecidableEq, Repr

/-- Storage of `VotingContract`. `voting_options` is the option-to-count map,
in insertion order; `start_voting` fills it in the declaration order of the
options. -/
structure VCState where
  token_contract : Nat
  admin : Nat
  voting_in_progress : Bool
  voting_options : List (Nat × Nat)
  voting_deadline : Nat
  voters : List Nat
deriving DecidableEq, Repr

/-- Loop body of the winner scan in `end_voting`: replace the running best only
on a strictly greater count (`if count > winning_count`). -/
def select_step (acc : Option Nat × Nat) (p : Nat × Nat) : Option Nat × Nat :=
  if acc.2 < p.2 then (some p.1, p.2) else acc

/-- `VotingContract::end_voting`. Clears the in-progress flag, scans the option
counts keeping the first strictly-greater count, and returns the winner; raises
`NoVotesCast` when no option has a positive count. -/
def end_voting (s : VCState) : Outcome VCError Nat × VCState :=
  if ¬ s.voting_in_progress then (.panicked .VotingNotStarted, s)
  else
    let s1 := { s with voting_in_progress := false }
    match (s.voting_options.foldl select_step (none, 0)).1 with
    | some o => (.ok o, s1)
    | none => (.panicked .NoVotesCast, s1)

theorem foldl_select_of_le (l : List (Nat × Nat)) (o : Option Nat) (c : Nat)
    (h : ∀ p ∈ l, p.2 ≤ c) : l.foldl select_step (o, c) = (o, c) := by
  induction l with
  | nil => rfl
  | cons p t ih =>
    have hp : p.2 ≤ c := h p (List.mem_cons_self p t)
    have hstep : select_step (o, c) p = (o, c) := by
      simp [select_step, Nat.not_lt.mpr hp]
    rw [List.foldl_cons, hstep]
    exact ih (fun q hq => h q (List.mem_cons_of_mem p hq))

theorem foldl_select_first (front : List (Nat × Nat)) (A c : Nat)
    (rest : List (Nat × Nat)) (o₀ : Option Nat) (c₀ : Nat)
    (hfront : ∀ p ∈ front, p.2 < c) (hrest : ∀ p ∈ rest, p.2 ≤ c) (hc : c₀ < c) :
    (front ++ (A, c) :: rest).foldl select_step (o₀, c₀) = (some A, c) := by
  induction front generalizing o₀ c₀ with
  | nil =>
    have hstep : select_step (o₀, c₀) (A, c) = (some A, c) := by
      simp [select_step, hc]
    rw [List.nil_append, List.foldl_cons, hstep]
    exact foldl_select_of_le rest (some A) c hrest
  | cons p t ih =>
    have hp : p.2 < c := hfront p (List.mem_cons_self p t)
    have ht : ∀ q ∈ t, q.2 < c := fun q hq => hfront q (List.mem_cons_of_mem p hq)
    rw [List.cons_append, List.foldl_cons]
    by_cases hlt : c₀ < p.2
    · have hstep : select_step (o₀, c₀) p = (some p.1, p.2) := by
        simp [select_step, hlt]
      rw [hstep]
      exact ih (some p.1) p.2 ht hp
    · have hstep : select_step (o₀, c₀) p = (o₀, c₀) := by
        simp [select_step, hlt]
      rw [hstep]
      exact ih o₀ c₀ ht hc

/-- C7: under the stake-weighted-majority policy (`VotingContract::end_voting`),
the option with the largest cumulative total wins, and among options tied for
the largest total the winner is the first one in the declaration order of the
options map: if the first option attaining the maximal positive count `c` is
`A`, resolution yields `A` — in particular when a later option `B` in `rest`
has the same count `c`, `A` still wins. -/
theorem end_voting_first_max (s : VCState) (front : List (Nat × Nat)) (A c : Nat)
    (rest : List (Nat × Nat))
    (hin : s.voting_in_progress = true)
    (hopts : s.voting_options = front ++ (A, c) :: rest)
    (hfront : ∀ p ∈ front, p.2 < c)
    (hrest : ∀ p ∈ rest, p.2 ≤ c)
    (hc : 0 < c) :
    (end_voting s).1 = Outcome.ok A := by
  have hfold : (s.voting_options.foldl select_step (none, 0)).1 = some A := by
    rw [hopts, foldl_select_first front A c rest none 0 hfront hrest hc]
  simp [end_voting, hin, hfold]

/-- Concrete tie: options declared in order `10` then `20`, both with total 5;
`end_voting` resolves to the first-declared option `10`. -/
def c7State : VCState :=
  { token_contract := 1, admin := 2, voting_in_progress := true,
    voting_options := [(10, 5), (20, 5)], voting_deadline := 100, voters := [] }

/-- Witness for C7 at a concrete tied state. -/
theorem end_voting_first_max_witness :
    (end_voting c7State).1 = Outcome.ok 10 :=
  end_voting_first_max c7State [] 10 5 [(20, 5)] rfl rfl
    (by intro p hp; cases hp) (by decide) (by decide)

theorem i128Min_nonpos : i128Min ≤ 0 := by norm_num [i128Min]

theorem i128Min_eq : i128Min = -i128Max - 1 := by norm_num [i128Min, i128Max]

theorem get_outcome_pool_stakes_update (s : PMState) (st : List ((Nat × Nat) × Int))
    (outcome : Nat) : get_outcome_pool { s with stakes := st } outcome = get_outcome_pool s outcome :=
  rfl

/-- C5: `PredictionMarket::resolve` — the authority-declared resolution — fails
with `Unauthorized` when the caller is not the admin, with `MarketNotMature`
(the contract's `DeadlineNotReached`) when the supplied time is strictly before
the resolution timestamp, with `InvalidOutcome` when the chosen outcome is not
among the declared outcomes, with `MarketAlreadyResolved` when the market is
already resolved, and otherwise succeeds, recording the chosen outcome as the
resolution and marking the market resolved. Failing calls leave the state
unchanged. -/
theorem resolve_authority_declared (s : PMState) (by_ chosen now : Nat) :
    (by_ ≠ s.admin → resolve s by_ chosen now = (.err .Unauthorized, s)) ∧
    (by_ = s.admin → now < s.resolution_timestamp →
      resolve s by_ chosen now = (.err .MarketNotMature, s)) ∧
    (by_ = s.admin → s.resolution_timestamp ≤ now → chosen ∉ s.outcomes →
      resolve s by_ chosen now = (.err .InvalidOutcome, s)) ∧
    (by_ = s.admin → s.resolution_timestamp ≤ now → chosen ∈ s.outcomes → s.resolved = true →
      resolve s by_ chosen now = (.err .MarketAlreadyResolved, s)) ∧
    (by_ = s.admin → s.resolution_timestamp ≤ now → chosen ∈ s.outcomes → s.resolved = false →
      resolve s by_ chosen now =
        (.ok (), { s with resolved_outcome := chosen, resolved := true })) := by
  refine ⟨?_, ?_, ?_, ?_, ?_⟩
  · intro h1
    simp [resolve, h1]
  · intro h1 h2
    simp [resolve, h1, h2]
  · intro h1 h2 h3
    simp [resolve, h1, Nat.not_lt.mpr h2, h3]
  · intro h1 h2 h3 h4
    simp [resolve, h1, Nat.not_lt.mpr h2, h3, h4]
  · intro h1 h2 h3 h4
    simp [resolve, h1, Nat.not_lt.mpr h2, h3, h4]

/-- Market used by the C5 witness: admin 7, outcomes 1 and 2, deadline 100. -/
def c5State : PMState :=
  { admin := 7, event_name := 0, outcomes := [1, 2], oracle := 9,
    resolution_timestamp := 100, resolved := false, resolved_outcome := 0,
    stakes := [], pools := [(1, 0), (2, 0)], total_liquidity := 0, transfers := [] }

/-- Witness for C5: each branch of `resolve` at concrete inputs. -/
theorem resolve_authority_declared_witness :
    resolve c5State 8 1 100 = (.err .Unauthorized, c5State) ∧
    resolve c5State 7 1 99 = (.err .MarketNotMature, c5State) ∧
    resolve c5State 7 3 100 = (.err .InvalidOutcome, c5State) ∧
    resolve { c5State with resolved := true } 7 1 100 =
      (.err .MarketAlreadyResolved, { c5State with resolved := true }) ∧
    resolve c5State 7 1 100 =
      (.ok (), { c5State with resolved_outcome := 1, resolved := true }) :=
  ⟨(resolve_authority_declared c5State 8 1 100).1 (by decide),
   (resolve_authority_declared c5State 7 1 99).2.1 rfl (by decide),
   (resolve_authority_declared c5State 7 3 100).2.2.1 rfl (by decide) (by decide),
   (resolve_authority_declared { c5State with resolved := true } 7 1 100).2.2.2.1 rfl
     (by decide) (by decide) rfl,
   (resolve_authority_declared c5State 7 1 100).2.2.2.2 rfl (by decide) (by decide) rfl⟩

/-- C10: `PredictionMarket::withdraw` is not gated by market state — the state
`s` here is arbitrary, in particular `s.resolved` may be `true`, and the
resolution fields are untouched. For a listed outcome: when `0 < amount` and
`amount` does not exceed the recorded stake (with the stake and pool inside the
`i128` range, as they are in every state reachable from `init`), it succeeds,
decreasing the recorded stake and the outcome's pool by exactly `amount` and
deleting the stake record when it reaches zero; when `amount` exceeds the
recorded stake it fails with `InsufficientStake` and leaves the state
unchanged. -/
theorem withdraw_spec (s : PMState) (to_ outcome : Nat) (amount : Int)
    (hmem : outcome ∈ s.outcomes) :
    (0 < amount → amount ≤ get_stake s to_ outcome →
      get_stake s to_ outcome ≤ i128Max →
      0 ≤ get_outcome_pool s outcome → get_outcome_pool s outcome ≤ i128Max →
      (withdraw s to_ outcome amount).1 = Outcome.ok () ∧
      get_stake (withdraw s to_ outcome amount).2 to_ outcome =
        get_stake s to_ outcome - amount ∧
      get_outcome_pool (withdraw s to_ outcome amount).2 outcome =
        get_outcome_pool s outcome - amount ∧
      (get_stake s to_ outcome - amount = 0 →
        mapGet (withdraw s to_ outcome amount).2.stakes (to_, outcome) = none) ∧
      (withdraw s to_ outcome amount).2.resolved = s.resolved) ∧
    (get_stake s to_ outcome < amount →
      withdraw s to_ outcome amount = (.err .InsufficientStake, s)) := by
  constructor
  · intro h1 h2 h3 h4 h5
    have hnl : ¬ get_stake s to_ outcome < amount := not_lt.mpr h2
    have hstake_sub : checked_sub (get_stake s to_ outcome) amount
        = some (get_stake s to_ outcome - amount) := by
      unfold checked_sub
      rw [if_pos]
      have hmin := i128Min_nonpos
      constructor
      · linarith
      · linarith
    have hpool_sub : checked_sub (get_outcome_pool s outcome) amount
        = some (get_outcome_pool s outcome - amount) := by
      unfold checked_sub
      rw [if_pos]
      have hmin := i128Min_eq
      constructor
      · linarith
      · linarith
    by_cases hz : get_stake s to_ outcome - amount = 0
    · simp only [withdraw, not_not_intro hmem, if_false, hnl, hstake_sub, hz, if_true,
        get_outcome_pool_stakes_update, hpool_sub, ite_true, ite_false, if_neg, if_pos]
      simp [get_stake, get_outcome_pool, mapGet_mapRemove_self, mapGet_mapSet_self, hz]
    · simp only [withdraw, not_not_intro hmem, if_false, hnl, hstake_sub, hz,
        get_outcome_pool_stakes_update, hpool_sub, ite_true, ite_false]
      simp [get_stake, get_outcome_pool, mapGet_mapRemove_self, mapGet_mapSet_self, hz]
  · intro hlt
    simp [withdraw, not_not_intro hmem, hlt]

/-- Resolved market used by the C10 witness: stake 100 of account 11 on
outcome 1, pools 150/200, market already resolved. -/
def c10State : PMState :=
  { admin := 7, event_name := 0, outcomes := [1, 2], oracle := 9,
    resolution_timestamp := 100, resolved := true, resolved_outcome := 1,
    stakes := [((11, 1), 100)], pools := [(1, 150), (2, 200)],
    total_liquidity := 0, transfers := [] }

/-- Witness for C10: a withdrawal of 40 succeeds on the already-resolved
market, leaving stake 60 and pool 110; a withdrawal of 200 exceeds the stake
and fails with `InsufficientStake`, unchanged state. -/
theorem withdraw_spec_witness :
    (withdraw c10State 11 1 40).1 = Outcome.ok () ∧
    get_stake (withdraw c10State 11 1 40).2 11 1 = 60 ∧
    get_outcome_pool (withdraw c10State 11 1 40).2 1 = 110 ∧
    (withdraw c10State 11 1 40).2.resolved = true ∧
    withdraw c10State 11 1 200 = (.err .InsufficientStake, c10State) := by
  have hmax : (100 : Int) ≤ i128Max := by norm_num [i128Max]
  have hmax2 : get_stake c10State 11 1 ≤ i128Max := by
    simp only [get_stake, c10State, mapGet]
    norm_num [i128Max]
  have hmax3 : get_outcome_pool c10State 1 ≤ i128Max := by
    simp only [get_outcome_pool, c10State, mapGet]
    norm_num [i128Max]
  obtain ⟨ha, hb, hc, hd, he⟩ :=
    (withdraw_spec c10State 11 1 40 (by decide)).1 (by decide) (by decide) hmax2
      (by decide) hmax3
  refine ⟨ha, ?_, ?_, he, (withdraw_spec c10State 11 1 200 (by decide)).2 (by decide)⟩
  · rw [hb]; decide
  · rw [hc]; decide

set_option maxRecDepth 40000

theorem checked_add_eq (a b c : Int) (h : checked_add a b = some c) : c = a + b := by
  unfold checked_add at h
  split at h
  · exact (Option.some.injEq _ _ ▸ h).symm
  · exact absurd h (by simp)

theorem deposit_ok_stake (t t' : PMState) (p o : Nat) (a : Int)
    (h : deposit t p o a = (Outcome.ok (), t')) :
    get_stake t' p o = get_stake t p o + a := by
  by_cases hmem : o ∈ t.outcomes
  · rw [deposit, if_neg (not_not_intro hmem)] at h
    cases hc1 : checked_add (get_stake t p o) a with
    | none => rw [hc1] at h; exact absurd h (by simp)
    | some v =>
      rw [hc1] at h
      dsimp only at h
      cases hc2 : checked_add (get_outcome_pool { t with stakes := mapSet t.stakes (p, o) v } o) a with
      | none => rw [hc2] at h; dsimp only at h; exact absurd h (by simp)
      | some w =>
        rw [hc2] at h
        dsimp only at h
        have ht' : t' = { t with stakes := mapSet t.stakes (p, o) v,
                                 pools := mapSet t.pools o w } := by
          have := congrArg Prod.snd h
          simpa using this.symm
        rw [ht']
        show (mapGet (mapSet t.stakes (p, o) v) (p, o)).getD 0 = get_stake t p o + a
        rw [mapGet_mapSet_self]
        simpa using checked_add_eq _ _ _ hc1
  · rw [deposit, if_pos hmem] at h
    exact absurd h (by simp)

/-- Open market used by the C8 and C6 examples: no stakes yet. -/
def c8State : PMState :=
  { admin := 7, event_name := 0, outcomes := [1, 2], oracle := 9,
    resolution_timestamp := 100, resolved := false, resolved_outcome := 0,
    stakes := [], pools := [(1, 0), (2, 0)], total_liquidity := 0, transfers := [] }

/-- Poll 1 of the `PredictiveMarketContract` example states: deadline 100,
unresolved. -/
def examplePoll : Poll :=
  { question := 0, options := 0, oracle := 9, deadline := 100,
    resolved := false, winning_option := 0 }

/-- `PredictiveMarketContract` storage with poll 1 open and no votes. -/
def pmcOpen : PMCState :=
  { admin := 7, token := 3, poll_count := 1, polls := [(1, examplePoll)],
    votes := [], contract_address := 0, transfers := [] }

/-- C8 (amended): a second successful `PredictionMarket::deposit` by the same
participant on the same outcome accumulates rather than overwrites — the
stored amount becomes the sum of the two staked amounts. (The call itself
returns `Ok(())`, not the cumulative amount; `PredictiveMarketContract::vote`
does not accumulate at all, rejecting any second stake with `AlreadyVoted` —
see the counterexample.) -/
theorem deposit_accumulates (s : PMState) (p o : Nat) (a1 a2 : Int) (s1 s2 : PMState)
    (h1 : deposit s p o a1 = (Outcome.ok (), s1))
    (h2 : deposit s1 p o a2 = (Outcome.ok (), s2)) :
    get_stake s2 p o = get_stake s p o + a1 + a2 := by
  rw [deposit_ok_stake s1 s2 p o a2 h2, deposit_ok_stake s s1 p o a1 h1]

/-- Witness for C8: depositing 100 then 50 on outcome 1 leaves a stored stake
of 0 + 100 + 50. -/
theorem deposit_accumulates_witness :
    get_stake (deposit (deposit c8State 11 1 100).2 11 1 50).2 11 1 =
      get_stake c8State 11 1 + 100 + 50 :=
  deposit_accumulates c8State 11 1 100 50 (deposit c8State 11 1 100).2
    (deposit (deposit c8State 11 1 100).2 11 1 50).2 (by decide) (by decide)

/-- Counterexample for C8 as stated. The claim says a second `record_stake`
on the same option succeeds, accumulates, and `returns the new cumulative
amount`. In `PredictionMarket::deposit` the second call succeeds and the
stored amount does become 150, but the call's return value is the unit value
`Ok(())` — the cumulative amount is not returned (it is only observable via
`get_stake`). In `PredictiveMarketContract::vote` a second stake by the same
participant on the same option does not succeed at all: it traps with
`AlreadyVoted`. -/
theorem restake_return_counterexample :
    (deposit (deposit c8State 11 1 100).2 11 1 50).1 = Outcome.ok () ∧
    get_stake (deposit (deposit c8State 11 1 100).2 11 1 50).2 11 1 = 150 ∧
    (vote (vote pmcOpen 1 11 1 100 5).2 1 11 1 50 5).1 =
      Outcome.panicked PollError.AlreadyVoted := by
  refine ⟨by decide, by decide, by decide⟩

theorem foldl_winning_const (l : List ((Nat × Nat) × Vote)) (w : Nat) (acc : Int)
    (h : ∀ kv ∈ l, kv.2.option ≠ w) :
    l.foldl (fun acc kv => if kv.2.option = w then wrap128 (acc + kv.2.amount) else acc) acc
      = acc := by
  induction l generalizing acc with
  | nil => rfl
  | cons kv t ih =>
    have hkv : kv.2.option ≠ w := h kv (List.mem_cons_self kv t)
    rw [List.foldl_cons, if_neg hkv]
    exact ih acc (fun q hq => h q (List.mem_cons_of_mem kv hq))

theorem wrap128_eq_self (a : Int) (h1 : i128Min ≤ a) (h2 : a ≤ i128Max) :
    wrap128 a = a := by
  unfold i128Min at h1
  unfold i128Max at h2
  unfold wrap128
  have hlow : (0 : Int) ≤ a + 2 ^ 127 := by linarith
  have hpow : (2 : Int) ^ 128 = 2 ^ 127 + 2 ^ 127 := by norm_num
  have hhigh : a + 2 ^ 127 < 2 ^ 128 := by rw [hpow]; linarith
  rw [Int.emod_eq_of_lt hlow hhigh]
  ring

theorem le_foldl_exact (l : List ((Nat × Nat) × Vote)) (acc : Int)
    (h : ∀ kv ∈ l, 0 < kv.2.amount) :
    acc ≤ l.foldl (fun acc kv => acc + kv.2.amount) acc := by
  induction l generalizing acc with
  | nil => exact le_rfl
  | cons kv t ih =>
    have hkv := h kv (List.mem_cons_self kv t)
    have ht := fun q hq => h q (List.mem_cons_of_mem kv hq)
    rw [List.foldl_cons]
    exact le_trans (by linarith) (ih (acc + kv.2.amount) ht)

theorem le_foldl_winning_exact (l : List ((Nat × Nat) × Vote)) (w : Nat) (acc : Int)
    (h : ∀ kv ∈ l, 0 < kv.2.amount) :
    acc ≤ l.foldl (fun acc kv => if kv.2.option = w then acc + kv.2.amount else acc) acc := by
  induction l generalizing acc with
  | nil => exact le_rfl
  | cons kv t ih =>
    have hkv := h kv (List.mem_cons_self kv t)
    have ht := fun q hq => h q (List.mem_cons_of_mem kv hq)
    rw [List.foldl_cons]
    by_cases hop : kv.2.option = w
    · rw [if_pos hop]
      exact le_trans (by linarith) (ih (acc + kv.2.amount) ht)
    · rw [if_neg hop]
      exact ih acc ht

theorem foldl_wrap_total_eq (l : List ((Nat × Nat) × Vote)) (acc : Int)
    (hacc : 0 ≤ acc) (h : ∀ kv ∈ l, 0 < kv.2.amount)
    (hbound : l.foldl (fun acc kv => acc + kv.2.amount) acc ≤ i128Max) :
    l.foldl (fun acc kv => wrap128 (acc + kv.2.amount)) acc =
      l.foldl (fun acc kv => acc + kv.2.amount) acc := by
  induction l generalizing acc with
  | nil => rfl
  | cons kv t ih =>
    have hkv := h kv (List.mem_cons_self kv t)
    have ht := fun q hq => h q (List.mem_cons_of_mem kv hq)
    rw [List.foldl_cons] at hbound
    rw [List.foldl_cons, List.foldl_cons]
    have hmono := le_foldl_exact t (acc + kv.2.amount) ht
    have hself : wrap128 (acc + kv.2.amount) = acc + kv.2.amount :=
      wrap128_eq_self _ (by have := i128Min_nonpos; linarith) (by linarith)
    rw [hself]
    exact ih (acc + kv.2.amount) (by linarith) ht hbound

theorem foldl_wrap_winning_eq (l : List ((Nat × Nat) × Vote)) (w : Nat) (acc : Int)
    (hacc : 0 ≤ acc) (h : ∀ kv ∈ l, 0 < kv.2.amount)
    (hbound : l.foldl (fun acc kv => if kv.2.option = w then acc + kv.2.amount else acc) acc
      ≤ i128Max) :
    l.foldl (fun acc kv => if kv.2.option = w then wrap128 (acc + kv.2.amount) else acc) acc =
      l.foldl (fun acc kv => if kv.2.option = w then acc + kv.2.amount else acc) acc := by
  induction l generalizing acc with
  | nil => rfl
  | cons kv t ih =>
    have hkv := h kv (List.mem_cons_self kv t)
    have ht := fun q hq => h q (List.mem_cons_of_mem kv hq)
    rw [List.foldl_cons] at hbound
    rw [List.foldl_cons, List.foldl_cons]
    by_cases hop : kv.2.option = w
    · rw [if_pos hop] at hbound
      rw [if_pos hop, if_pos hop]
      have hmono := le_foldl_winning_exact t w (acc + kv.2.amount) ht
      have hself : wrap128 (acc + kv.2.amount) = acc + kv.2.amount :=
        wrap128_eq_self _ (by have := i128Min_nonpos; linarith) (by linarith)
      rw [hself]
      exact ih (acc + kv.2.amount) (by linarith) ht hbound
    · rw [if_neg hop] at hbound
      rw [if_neg hop, if_neg hop]
      exact ih acc hacc ht hbound

theorem foldl_winning_nonneg (l : List ((Nat × Nat) × Vote)) (w : Nat) (acc : Int)
    (hacc : 0 ≤ acc) (h : ∀ kv ∈ l, 0 < kv.2.amount) :
    0 ≤ l.foldl (fun acc kv => if kv.2.option = w then acc + kv.2.amount else acc) acc := by
  induction l generalizing acc with
  | nil => exact hacc
  | cons kv t ih =>
    have hkv : 0 < kv.2.amount := h kv (List.mem_cons_self kv t)
    rw [List.foldl_cons]
    have ht := fun q hq => h q (List.mem_cons_of_mem kv hq)
    by_cases hop : kv.2.option = w
    · rw [if_pos hop]
      exact ih (acc + kv.2.amount) (by linarith) ht
    · rw [if_neg hop]
      exact ih acc hacc ht

theorem foldl_winning_le_total (l : List ((Nat × Nat) × Vote)) (w : Nat) (a b : Int)
    (hab : a ≤ b) (h : ∀ kv ∈ l, 0 < kv.2.amount) :
    l.foldl (fun acc kv => if kv.2.option = w then acc + kv.2.amount else acc) a ≤
      l.foldl (fun acc kv => acc + kv.2.amount) b := by
  induction l generalizing a b with
  | nil => exact hab
  | cons kv t ih =>
    have hkv : 0 < kv.2.amount := h kv (List.mem_cons_self kv t)
    have ht := fun q hq => h q (List.mem_cons_of_mem kv hq)
    rw [List.foldl_cons, List.foldl_cons]
    by_cases hop : kv.2.option = w
    · rw [if_pos hop]
      exact ih (a + kv.2.amount) (b + kv.2.amount) (by linarith) ht
    · rw [if_neg hop]
      exact ih a (b + kv.2.amount) (by linarith) ht

/-- C3 (amended): the no-winner refund holds of
`PredictiveMarketContract::distribute_rewards` only. When no stored vote of
the poll is on the winning option, its settlement takes the refund branch
instead of the proportional computation: the emitted transfers send every
participant exactly their original staked amount. (`PredictionMarket::claim`
has no refund path at all — see the counterexample.) -/
theorem no_winner_refund (s : PMCState) (poll_id w : Nat)
    (h : ∀ kv ∈ poll_votes s poll_id, kv.2.option ≠ w) :
    (distribute_rewards s poll_id w).transfers =
      s.transfers ++ (poll_votes s poll_id).map
        (fun kv => (s.contract_address, kv.1.2, kv.2.amount)) := by
  have hz : winning_stake_of s poll_id w = 0 := foldl_winning_const _ w 0 h
  simp [distribute_rewards, hz]

/-- Poll state for the C3 witness: stakes 100 and 50, both on option 1. -/
def pmcNoWin : PMCState :=
  { admin := 7, token := 3, poll_count := 1, polls := [(1, examplePoll)],
    votes := [((1, 11), ⟨1, 100⟩), ((1, 12), ⟨1, 50⟩)],
    contract_address := 0, transfers := [] }

/-- Witness for C3: resolving to option 2, which nobody staked, refunds 100 to
participant 11 and 50 to participant 12 — exactly the original stakes. -/
theorem no_winner_refund_witness :
    (distribute_rewards pmcNoWin 1 2).transfers = [(0, 11, 100), (0, 12, 50)] := by
  rw [no_winner_refund pmcNoWin 1 2 (by decide)]
  decide

/-- Resolved `PredictionMarket` whose winning pool is zero: outcome 1 won but
only participant 13 staked, with 200 on losing outcome 2. -/
def pmNoWinner : PMState :=
  { admin := 7, event_name := 0, outcomes := [1, 2], oracle := 9,
    resolution_timestamp := 100, resolved := true, resolved_outcome := 1,
    stakes := [((13, 2), 200)], pools := [(1, 0), (2, 200)],
    total_liquidity := 0, transfers := [] }

/-- Counterexample for C3 as stated. The claim equally cites
`PredictionMarket::claim`, which has no refund path: on this resolved market
whose winning pool is zero, participant 13's claim of their own stake (on the
losing outcome 2) fails with `NotWinningOutcome`, and their claim on the
winning outcome 1 fails with `NoStake` — both leave the state unchanged, so
no participant's claim amount equals their original stake; the stakes are not
returned through `claim`. -/
theorem no_refund_in_claim_counterexample :
    get_outcome_pool pmNoWinner 1 = 0 ∧
    claim pmNoWinner 13 2 = (Outcome.err PMError.NotWinningOutcome, pmNoWinner) ∧
    claim pmNoWinner 13 1 = (Outcome.err PMError.NoStake, pmNoWinner) :=
  ⟨by decide, by decide, by decide⟩

/-- Resolved `PredictionMarket` carrying the spec's concrete scenario: stakes
100 and 50 on winning outcome 1, 200 on losing outcome 2, pools 150/200, no
liquidity added. -/
def pmScenario : PMState :=
  { admin := 7, event_name := 0, outcomes := [1, 2], oracle := 9,
    resolution_timestamp := 100, resolved := true, resolved_outcome := 1,
    stakes := [((11, 1), 100), ((12, 1), 50), ((13, 2), 200)],
    pools := [(1, 150), (2, 200)], total_liquidity := 0, transfers := [] }

/-- Counterexample for C1 as stated. In the claim's own scenario
(grand_total 350, winning pool 150), `PredictionMarket::claim` succeeds for
the winner who staked 100 but transfers `stake * total_liquidity / pool
= 100 * 0 / 150 = 0`, not `floor(100 * 350 / 150) = 233`: this `claim`
distributes the separately tracked liquidity, not the staked grand total. -/
theorem claim_formula_counterexample :
    (claim pmScenario 11 1).1 = Outcome.ok () ∧
    (claim pmScenario 11 1).2.transfers = [(11, 0)] ∧
    (0 : Int) ≠ Int.tdiv (100 * 350) 150 := by
  exact ⟨by decide, by decide, by decide⟩

/-- C1 (amended): the proportional payout of the spec is implemented by
`PredictiveMarketContract::distribute_rewards`, not by
`PredictionMarket::claim`. For a poll with positive stake amounts, a non-zero
winning pool, and the unchecked `i128` arithmetic staying in range — the grand
total and every product `amount * grand_total` at most `i128Max`, so that
neither the accumulators nor the multiplication wrap — every winner who staked
`a` is transferred exactly `a * grand_total / winning_pool` (truncating
division, which on these non-negative values is the floor), and losers receive
nothing. -/
theorem distribute_rewards_payout (s : PMCState) (poll_id w : Nat)
    (hpos : ∀ kv ∈ poll_votes s poll_id, 0 < kv.2.amount)
    (hw : exact_winning_stake s poll_id w ≠ 0)
    (htot : exact_total_stake s poll_id ≤ i128Max)
    (hmul : ∀ kv ∈ poll_votes s poll_id,
      kv.2.amount * exact_total_stake s poll_id ≤ i128Max) :
    (distribute_rewards s poll_id w).transfers =
      s.transfers ++ (poll_votes s poll_id).filterMap (fun kv =>
        if kv.2.option = w then
          some (s.contract_address, kv.1.2,
            Int.tdiv (kv.2.amount * exact_total_stake s poll_id)
              (exact_winning_stake s poll_id w))
        else none) := by
  have hW0 : 0 ≤ exact_winning_stake s poll_id w :=
    foldl_winning_nonneg _ w 0 le_rfl hpos
  have hWpos : 0 < exact_winning_stake s poll_id w := lt_of_le_of_ne hW0 (Ne.symm hw)
  have hWT : exact_winning_stake s poll_id w ≤ exact_total_stake s poll_id :=
    foldl_winning_le_total _ w 0 0 le_rfl hpos
  have hT0 : 0 ≤ exact_total_stake s poll_id := le_trans hW0 hWT
  have hTeq : total_stake_of s poll_id = exact_total_stake s poll_id :=
    foldl_wrap_total_eq _ 0 le_rfl hpos htot
  have hWeq : winning_stake_of s poll_id w = exact_winning_stake s poll_id w :=
    foldl_wrap_winning_eq _ w 0 le_rfl hpos (le_trans hWT htot)
  have hwrapmul : ∀ kv ∈ poll_votes s poll_id,
      wrap128 (kv.2.amount * exact_total_stake s poll_id) =
        kv.2.amount * exact_total_stake s poll_id := by
    intro kv hkv
    apply wrap128_eq_self
    · have hn : 0 ≤ kv.2.amount * exact_total_stake s poll_id :=
        mul_nonneg (le_of_lt (hpos kv hkv)) hT0
      have := i128Min_nonpos
      linarith
    · exact hmul kv hkv
  have hrew : ∀ kv ∈ poll_votes s poll_id, kv.2.option = w →
      0 < Int.tdiv (kv.2.amount * exact_total_stake s poll_id)
        (exact_winning_stake s poll_id w) := by
    intro kv hkv _
    have ha := hpos kv hkv
    have h1a : (1 : Int) ≤ kv.2.amount := ha
    have hnum : 0 ≤ kv.2.amount * exact_total_stake s poll_id :=
      mul_nonneg (le_of_lt ha) hT0
    rw [Int.tdiv_eq_ediv hnum hW0]
    have hle : 1 * exact_winning_stake s poll_id w ≤
        kv.2.amount * exact_total_stake s poll_id := by
      rw [one_mul]
      calc exact_winning_stake s poll_id w ≤ exact_total_stake s poll_id := hWT
        _ = 1 * exact_total_stake s poll_id := (one_mul _).symm
        _ ≤ kv.2.amount * exact_total_stake s poll_id :=
            mul_le_mul_of_nonneg_right h1a hT0
    have h1 := (Int.le_ediv_iff_mul_le hWpos).mpr hle
    omega
  have hwne : winning_stake_of s poll_id w ≠ 0 := by rw [hWeq]; exact hw
  simp only [distribute_rewards, if_neg hwne]
  congr 1
  apply List.filterMap_congr
  intro kv hkv
  by_cases hop : kv.2.option = w
  · simp only [hop, hTeq, hWeq, hwrapmul kv hkv, if_pos (hrew kv hkv hop), if_true, ite_true]
  · simp [hop]

/-- Open poll carrying the spec's concrete scenario on the
`PredictiveMarketContract` side: stakes 100 and 50 on option 1, 200 on
option 2. -/
def pmcScenario : PMCState :=
  { admin := 7, token := 3, poll_count := 1, polls := [(1, examplePoll)],
    votes := [((1, 11), ⟨1, 100⟩), ((1, 12), ⟨1, 50⟩), ((1, 13), ⟨2, 200⟩)],
    contract_address := 0, transfers := [] }

/-- Witness for C1 (amended), the spec's scenario: grand total 350, winning
pool 150; the winners are paid 233 and 116, the sum of all payouts staying
within the grand total. -/
theorem distribute_rewards_payout_witness :
    (distribute_rewards pmcScenario 1 1).transfers = [(0, 11, 233), (0, 12, 116)] ∧
    exact_total_stake pmcScenario 1 = 350 ∧
    (233 + 116 : Int) ≤ exact_total_stake pmcScenario 1 := by
  refine ⟨?_, by decide, by decide⟩
  rw [distribute_rewards_payout pmcScenario 1 1 (by decide) (by decide) (by decide)
    (by decide)]
  decide

theorem claim_ok_shape (s s' : PMState) (to_ outcome : Nat)
    (h : claim s to_ outcome = (Outcome.ok (), s')) :
    s.resolved = true ∧ outcome = s.resolved_outcome ∧
    s' = { s with stakes := mapRemove s.stakes (to_, outcome),
                  transfers := s.transfers ++
                    [(to_, Int.tdiv (get_stake s to_ outcome * s.total_liquidity)
                      (get_outcome_pool s outcome))] } := by
  unfold claim at h
  split at h
  · exact absurd h (by simp)
  · rename_i hres
    split at h
    · exact absurd h (by simp)
    · rename_i hout
      split at h
      · exact absurd h (by simp)
      · rename_i hst
        refine ⟨by simpa using hres, not_ne_iff.mp hout, ?_⟩
        have := congrArg Prod.snd h
        simpa using this.symm

/-- C2 (amended): settlement is at-most-once, but the error of a repeated call
is contract-specific. After a successful `PredictionMarket::claim` the stake
record is deleted, so every further `claim` for that stake fails — with
`NoStake`, since that error enum has no already-settled variant. After a
successful `DecentralizedAuction::claim_item` the `settlement_done` flag is
set, so every further `claim_item` fails with `SettlementAlreadyDone` (the
contract's `AlreadySettled`). Both failures leave the state unchanged. -/
theorem claim_at_most_once :
    (∀ (s s' : PMState) (to_ outcome : Nat),
      claim s to_ outcome = (Outcome.ok (), s') →
      claim s' to_ outcome = (Outcome.err PMError.NoStake, s')) ∧
    (∀ (s s' : AuctionState) (caller : Nat),
      claim_item s caller = (Outcome.ok (), s') →
      claim_item s' caller = (Outcome.err AuctionError.SettlementAlreadyDone, s')) := by
  constructor
  · intro s s' to_ outcome h
    obtain ⟨hres, hout, hs'⟩ := claim_ok_shape s s' to_ outcome h
    have hstake : get_stake s' to_ outcome = 0 := by
      rw [hs']
      show (mapGet (mapRemove s.stakes (to_, outcome)) (to_, outcome)).getD 0 = 0
      rw [mapGet_mapRemove_self]
      rfl
    have hres' : s'.resolved = true := by rw [hs']; exact hres
    have hout' : outcome = s'.resolved_outcome := by rw [hs']; exact hout
    rw [claim, if_neg (not_not_intro (by simp [hres'])), if_neg (not_not_intro hout'),
      if_pos hstake]
  · intro s s' caller h
    unfold claim_item at h
    split at h
    · exact absurd h (by simp)
    · rename_i hfin
      split at h
      · exact absurd h (by simp)
      · rename_i hcaller
        split at h
        · rename_i hdone
          have hs' : s' = { s with transfers := s.transfers ++ [(s.owner, s.highest_bid)],
                                   settlement_done := true } := by
            have := congrArg Prod.snd h
            simpa using this.symm
          have hfin' : s'.auction_finished = true := by
            rw [hs']
            simpa using hfin
          have hcaller' : caller = s'.highest_bidder := by
            rw [hs']
            exact not_ne_iff.mp hcaller
          have hdone' : s'.settlement_done = true := by rw [hs']
          rw [claim_item, if_neg (not_not_intro (by simp [hfin'])),
            if_neg (not_not_intro hcaller'), if_neg (not_not_intro (by simp [hdone']))]
        · exact absurd h (by simp)

/-- Finished auction used by the C2 witness: bidder 5 won with 500. -/
def auctionDone : AuctionState :=
  { owner := 1, end_timestamp := 100, highest_bid := 500, highest_bidder := 5,
    bids := [(5, 500)], auction_finished := true, settlement_done := false,
    transfers := [] }

/-- Witness for C2 (amended): one successful claim on each contract, then the
repeated call fails with the respective error, leaving the state unchanged. -/
theorem claim_at_most_once_witness :
    claim (claim c10State 11 1).2 11 1 =
      (Outcome.err PMError.NoStake, (claim c10State 11 1).2) ∧
    claim_item (claim_item auctionDone 5).2 5 =
      (Outcome.err AuctionError.SettlementAlreadyDone, (claim_item auctionDone 5).2) :=
  ⟨claim_at_most_once.1 c10State (claim c10State 11 1).2 11 1 (by decide),
   claim_at_most_once.2 auctionDone (claim_item auctionDone 5).2 5 (by decide)⟩

/-- Counterexample for C2 as stated. The first `PredictionMarket::claim` on
the resolved market succeeds; the second call for the same stake does fail,
but the returned failure is `NoStake` — the contract deletes the stake record
instead of marking it settled, and its error enum contains no `AlreadySettled`
value at all. -/
theorem second_claim_error_counterexample :
    (claim c10State 11 1).1 = Outcome.ok () ∧
    (claim (claim c10State 11 1).2 11 1).1 = Outcome.err PMError.NoStake := by
  exact ⟨by decide, by decide⟩

/-- C4 (amended): the staking gates that do exist. For a positive amount on an
existing poll, `PredictiveMarketContract::vote` fails with `PollNotActive`
(the spec's `InstanceNotOpen`) when the poll is already resolved, and with
`DeadlinePassed` when the supplied current time is strictly greater than the
deadline; failing calls leave the state unchanged. (A stake placed exactly at
the deadline is accepted, and `PredictionMarket::deposit` has no state or
deadline gate at all — see the counterexample.) -/
theorem vote_gate (s : PMCState) (poll_id voter option : Nat) (amount : Int)
    (now : Nat) (poll : Poll)
    (hamt : 0 < amount) (hpoll : mapGet s.polls poll_id = some poll) :
    (poll.resolved = true →
      vote s poll_id voter option amount now = (.panicked .PollNotActive, s)) ∧
    (poll.resolved = false → poll.deadline < now →
      vote s poll_id voter option amount now = (.panicked .DeadlinePassed, s)) := by
  have hnle : ¬ amount ≤ 0 := not_le.mpr hamt
  constructor
  · intro hres
    simp [vote, hnle, hpoll, hres]
  · intro hres hd
    simp [vote, hnle, hpoll, hres, hd]

/-- Poll 1 already resolved, used by the C4 witness. -/
def pmcResolvedPoll : PMCState :=
  { pmcOpen with polls := [(1, { examplePoll with resolved := true })] }

/-- Witness for C4 (amended): staking on the resolved poll fails with
`PollNotActive`; staking at time 101 on the open poll with deadline 100 fails
with `DeadlinePassed`. -/
theorem vote_gate_witness :
    vote pmcResolvedPoll 1 11 1 100 5 =
      (Outcome.panicked PollError.PollNotActive, pmcResolvedPoll) ∧
    vote pmcOpen 1 11 1 100 101 =
      (Outcome.panicked PollError.DeadlinePassed, pmcOpen) :=
  ⟨(vote_gate pmcResolvedPoll 1 11 1 100 5 { examplePoll with resolved := true }
      (by decide) (by decide)).1 rfl,
   (vote_gate pmcOpen 1 11 1 100 101 examplePoll (by decide) (by decide)).2 rfl
     (by decide)⟩

/-- Resolved, empty `PredictionMarket` used by the C4 counterexample. -/
def pmResolvedOpenGate : PMState :=
  { c8State with resolved := true, resolved_outcome := 1 }

/-- Counterexample for C4 as stated. `PredictionMarket::deposit` has no state
or deadline check: a stake of 100 is recorded on a market that is already
resolved. And `PredictiveMarketContract::vote` at a current time equal to the
deadline (100) succeeds, because the source only rejects times strictly
greater than the deadline — so a stake can be recorded both on a resolved
instance and at the deadline, and neither call returns `InstanceNotOpen`. -/
theorem stake_gate_counterexample :
    pmResolvedOpenGate.resolved = true ∧
    (deposit pmResolvedOpenGate 11 1 100).1 = Outcome.ok () ∧
    get_stake (deposit pmResolvedOpenGate 11 1 100).2 11 1 = 100 ∧
    (vote pmcOpen 1 11 1 100 100).1 = Outcome.ok () ∧
    mapGet (vote pmcOpen 1 11 1 100 100).2.votes (1, 11) = some ⟨1, 100⟩ := by
  exact ⟨rfl, by decide, by decide, by decide, by decide⟩

/-- C6 (amended): `PredictiveMarketContract::vote` rejects every non-positive
amount with `ZeroAmount` before any mutation — the returned state is exactly
the input state, so ledger and pool totals are unchanged.
(`PredictionMarket::deposit` has no such check — see the counterexample.) -/
theorem vote_rejects_nonpositive (s : PMCState) (poll_id voter option : Nat)
    (amount : Int) (now : Nat) (h : amount ≤ 0) :
    vote s poll_id voter option amount now = (.panicked .ZeroAmount, s) := by
  simp [vote, h]

/-- Witness for C6 (amended): a stake of exactly 0 is rejected with
`ZeroAmount` and the state is unchanged. -/
theorem vote_rejects_nonpositive_witness :
    vote pmcOpen 1 11 1 0 5 = (Outcome.panicked PollError.ZeroAmount, pmcOpen) :=
  vote_rejects_nonpositive pmcOpen 1 11 1 0 5 (by decide)

/-- Counterexample for C6 as stated. `PredictionMarket::deposit` — equally
cited as the `record_stake` realization — performs no amount check: a deposit
of exactly 0 returns `Ok`, not `ZeroAmount`. -/
theorem deposit_accepts_zero_counterexample :
    (deposit c8State 11 1 0).1 = Outcome.ok () := by
  decide

/-- C9 (amended): `PredictiveMarketContract::vote` is total in the sense that
every run either succeeds or raises one of the typed error codes of its error
enum via `panic_with_error`, with no state mutation on the failing runs — but
those failures are panics (traps), not `Result` values. -/
theorem vote_typed_failures (s : PMCState) (poll_id voter option : Nat)
    (amount : Int) (now : Nat) :
    (vote s poll_id voter option amount now).1 = Outcome.ok () ∨
    ∃ e, vote s poll_id voter option amount now = (Outcome.panicked e, s) := by
  by_cases h1 : amount ≤ 0
  · exact Or.inr ⟨PollError.ZeroAmount, by simp [vote, h1]⟩
  · cases hp : mapGet s.polls poll_id with
    | none => exact Or.inr ⟨PollError.PollNotFound, by simp [vote, h1, hp]⟩
    | some poll =>
      by_cases h2 : poll.resolved
      · exact Or.inr ⟨PollError.PollNotActive, by simp [vote, h1, hp, h2]⟩
      · by_cases h3 : poll.deadline < now
        · exact Or.inr ⟨PollError.DeadlinePassed, by simp [vote, h1, hp, h2, h3]⟩
        · by_cases h4 : (mapGet s.votes (poll_id, voter)).isSome
          · exact Or.inr ⟨PollError.AlreadyVoted, by simp [vote, h1, hp, h2, h3, h4]⟩
          · exact Or.inl (by simp [vote, h1, hp, h2, h3, h4])

/-- Counterexample for C9 as stated. A caller-supplied input — a vote with
amount 0 — makes `PredictiveMarketContract::vote` panic (via
`panic_with_error`, here the `Outcome.panicked` result) instead of surfacing
the failure as a normal `Result` value: the claim's "no caller-triggerable
condition causes a panic" does not hold of this contract. -/
theorem vote_panic_counterexample :
    vote pmcOpen 1 11 1 0 5 = (Outcome.panicked PollError.ZeroAmount, pmcOpen) := by
  decide
